import Mathlib

/-!
Verification of the fork-based call execution engine
(`packages/server/src/gas/execute_calldatas_fork.rs` and its route
`packages/server/src/routes/execute_calldatas_fork.rs`).

The engine resolves a remote RPC endpoint from an optional fork
configuration, fetches gas price / chain id / block header, builds the
execution environment, injects caller-supplied bytecode at a chosen
address, and executes an ordered list of calls against the forked state,
producing one `ExecutionResult` per call.

External collaborators (the foundry remote-state backend and the
forge/revm virtual machine) are embedded at their interface boundary;
definitions modelled from the spec rather than from code under `src/`
say so in their doc comment.
-/

namespace EvmRepl

/-- Byte strings (calldata, return data, bytecode) as lists of byte values. -/
abbrev Bytes := List Nat

/-- One simulated call: `Call { calldata, value, caller }` from the source. -/
structure Call where
  calldata : Bytes
  value : Nat
  caller : Nat
deriving Repr, DecidableEq

/-- Record `ForkConfig { rpc_url, chain_id, block_number }`, every field optional. -/
structure ForkConfig where
  rpc_url : Option String
  chain_id : Option Nat
  block_number : Option Nat
deriving Repr, DecidableEq

/-- Engine-level errors: configuration errors, provider errors, the
block-not-found failure, the fatal missing-block-number case (an
`expect` panic in the source), and a virtual-machine-level failure
propagated by the `?` in the call loop. -/
inductive EngineError where
  | unsupportedChain (chainId : Nat)
  | missingDefaultConfiguration
  | provider (msg : String)
  | blockNotFound
  | blockNumberNotFound
  | vm (msg : String)
deriving Repr, DecidableEq

/-- View of the process environment variables: name to value if set. -/
abbrev EnvVars := String → Option String

/-- Registry `CHAIN_RPC_URLS`: the static mapping from chain id to RPC URL, built
from environment variables; entries whose variable is unset are simply
missing from the map. -/
def CHAIN_RPC_URLS (env : EnvVars) : Nat → Option String := fun cid =>
  if cid = 8453 then env "BASE_RPC"
  else if cid = 1 then env "ETH_RPC"
  else if cid = 42161 then env "ARBITRUM_RPC"
  else if cid = 10 then env "OPTIMISM_RPC"
  else if cid = 137 then env "POLYGON_RPC"
  else if cid = 56 then env "BNB_RPC"
  else if cid = 43114 then env "AVALANCHE_RPC"
  else none

/-- The default-endpoint fallback arm of the RPC resolution `match`:
`env::var("BASE_RPC")` or the missing-default error. -/
def defaultRpc (env : EnvVars) : Except EngineError String :=
  match env "BASE_RPC" with
  | some url => .ok url
  | none => .error .missingDefaultConfiguration

/-- RPC endpoint resolution (source lines 98-123): custom URL first, then
chain-id lookup in `CHAIN_RPC_URLS`, then the `BASE_RPC` default. -/
def resolveRpc (env : EnvVars) (fork_config : Option ForkConfig) :
    Except EngineError String :=
  match fork_config with
  | some config =>
    match config.rpc_url with
    | some url => .ok url
    | none =>
      match config.chain_id with
      | some cid =>
        match CHAIN_RPC_URLS env cid with
        | some url => .ok url
        | none => .error (.unsupportedChain cid)
      | none => defaultRpc env
  | none => defaultRpc env

/-- Block selector passed to the provider. -/
inductive BlockId where
  | number (n : Nat)
  | latest
deriving Repr, DecidableEq

/-- Block id resolution (source lines 129-134): an explicit
`blockNumber` targets exactly that block, otherwise latest. -/
def resolveBlockId (fork_config : Option ForkConfig) : BlockId :=
  match fork_config with
  | some config =>
    match config.block_number with
    | some n => .number n
    | none => .latest
  | none => .latest

/-- The remote block header fields the engine reads (alloy header).
`number`, `mix_hash` and `base_fee_per_gas` are optional in the remote
representation; the remaining fields are always present. -/
structure Header where
  number : Option Nat
  timestamp : Nat
  miner : Nat
  difficulty : Nat
  mix_hash : Option Nat
  base_fee_per_gas : Option Nat
  gas_limit : Nat
deriving Repr, DecidableEq

/-- A fetched remote block (only the header is used). -/
structure Block where
  header : Header
deriving Repr, DecidableEq

/-- Abstract remote endpoint: the three queries issued jointly by
`tokio::try_join!`; each may fail with a provider error. -/
structure Provider where
  get_gas_price : Except String Nat
  get_chain_id : Except String Nat
  get_block : BlockId → Except String (Option Block)

/-- Record `BlockEnv` as populated by the engine (source lines 163-172). -/
structure BlockEnv where
  number : Nat
  timestamp : Nat
  coinbase : Nat
  difficulty : Nat
  prevrandao : Option Nat
  basefee : Nat
  gas_limit : Nat
deriving Repr, DecidableEq

/-- Configuration environment: the engine only sets the chain id. -/
structure CfgEnv where
  chain_id : Nat
deriving Repr, DecidableEq

/-- Transaction environment: the engine sets the chain id and the
per-call gas limit (the block gas limit). -/
structure TxEnv where
  chain_id : Option Nat
  gas_limit : Nat
deriving Repr, DecidableEq

/-- The full execution environment handed to the executor. -/
structure Env where
  cfg : CfgEnv
  block : BlockEnv
  tx : TxEnv
deriving Repr, DecidableEq

/-- Chain id override (source lines 145-150): an explicitly supplied
`forkConfig.chainId` replaces the endpoint-reported chain id. -/
def effectiveChainId (fork_config : Option ForkConfig) (rpc_chain_id : Nat) : Nat :=
  match fork_config with
  | some config =>
    match config.chain_id with
    | some cid => cid
    | none => rpc_chain_id
  | none => rpc_chain_id

/-- Construction of `BlockEnv` from the fetched header (source lines
163-172): `prevrandao` is `Some(mix_hash.unwrap_or_default())`,
`basefee` is `base_fee_per_gas.unwrap_or_default()`, and a missing
block number is the fatal `expect` case. -/
def buildBlockEnv (header : Header) : Except EngineError BlockEnv :=
  match header.number with
  | none => .error .blockNumberNotFound
  | some n =>
    .ok { number := n
          timestamp := header.timestamp
          coinbase := header.miner
          difficulty := header.difficulty
          prevrandao := some (header.mix_hash.getD 0)
          basefee := header.base_fee_per_gas.getD 0
          gas_limit := header.gas_limit }

/-- Full `Env` construction (source lines 152, 163-182): the chain id is
installed in both the configuration and the transaction environment,
and the per-call gas limit is the block gas limit. -/
def buildEnv (header : Header) (chain_id : Nat) : Except EngineError Env :=
  match buildBlockEnv header with
  | .error e => .error e
  | .ok blockEnv =>
    .ok { cfg := { chain_id := chain_id }
          block := blockEnv
          tx := { chain_id := some chain_id, gas_limit := header.gas_limit } }

/-- Account record as reported by the state backend (revm `AccountInfo`). -/
structure AccountInfo where
  balance : Nat
  nonce : Nat
  code_hash : Nat
  code : Option Bytes
deriving Repr, DecidableEq

/-- Value of `AccountInfo::default()`: zero balance, zero nonce, empty-code hash,
no code. The empty-code hash constant itself is never inspected by the
engine. -/
def AccountInfo.default : AccountInfo :=
  { balance := 0, nonce := 0, code_hash := 0, code := none }

instance : Inhabited AccountInfo := ⟨AccountInfo.default⟩

/-- Modelled from the spec: the Remote State Backend (the external
foundry backend spawned by `Backend::spawn`; only its interface is
visible under `src/`). Per spec section 4.3 it is a lazily-populated
cache over the remote endpoint state in which explicit account
overrides take absolute precedence over cached or remote data, and
overridden or cached data is never re-fetched. `contracts` stores code
bytes keyed by code hash. -/
structure Backend where
  overrides : Nat → Option AccountInfo
  cache : Nat → Option AccountInfo
  contracts : Nat → Option Bytes
  remote : Nat → AccountInfo
  remoteCode : Nat → Option Bytes

/-- Operation `getAccount`: overrides first, then the session cache, then a remote
fetch that populates the cache. -/
def getAccount (b : Backend) (addr : Nat) : AccountInfo × Backend :=
  match b.overrides addr with
  | some info => (info, b)
  | none =>
    match b.cache addr with
    | some info => (info, b)
    | none =>
      let info := b.remote addr
      (info, { b with cache := fun a => if a = addr then some info else b.cache a })

/-- Operation `getCode`: locally-known code for a hash first, then the remote view. -/
def getCode (b : Backend) (hash : Nat) : Option Bytes :=
  match b.contracts hash with
  | some code => some code
  | none => b.remoteCode hash

/-- Operation `insert_account_info` (source lines 198-205): installs an account
override and, when the account carries code, records the code bytes
under the account code hash. -/
def insert_account_info (b : Backend) (addr : Nat) (info : AccountInfo) : Backend :=
  { b with
    overrides := fun a => if a = addr then some info else b.overrides a
    contracts :=
      match info.code with
      | some code => fun h => if h = info.code_hash then some code else b.contracts h
      | none => b.contracts }

/-- The injected account (source lines 197-204): `AccountInfo` whose code
hash is the content hash of the supplied bytecode, whose code is that
bytecode, and whose remaining fields come from `Default::default()`.
`hash_slow` is the content-hash function, kept abstract. -/
def injectedAccountInfo (hash_slow : Bytes → Nat) (deployed_bytes : Bytes) : AccountInfo :=
  { AccountInfo.default with
    code_hash := hash_slow deployed_bytes
    code := some deployed_bytes }

/-- A remote-state access performed after injection (an on-demand fetch
triggered during execution). -/
inductive BackendOp where
  | fetchAccount (addr : Nat)
deriving Repr, DecidableEq

/-- Applies a sequence of remote-state accesses to the backend. -/
def applyOps (b : Backend) : List BackendOp → Backend
  | [] => b
  | .fetchAccount a :: rest => applyOps (getAccount b a).2 rest

/-- Exit reason reported by the virtual machine (revm
`InstructionResult`, copied verbatim into each result). -/
inductive InstructionResult where
  | stop
  | ret
  | revert
  | outOfGas
  | invalidOpcode
  | other (code : Nat)
deriving Repr, DecidableEq

/-- An emitted log record. -/
structure Log where
  address : Nat
  topics : List Nat
  data : Bytes
deriving Repr, DecidableEq

/-- Captured trace data (forge `CallTraceArena`), kept opaque; the
engine only moves it around, defaulting to empty when absent. -/
abbrev CallTraceArena := List Nat

/-- The raw per-call outcome returned by the virtual-machine component
(forge `RawCallResult` fields read by the engine). -/
structure RawCallResult where
  exit_reason : InstructionResult
  reverted : Bool
  result : Bytes
  gas_used : Nat
  logs : List Log
  traces : Option CallTraceArena
deriving Repr, DecidableEq

/-- Record `ExecutionResult`, the per-call record returned to the caller. -/
structure ExecutionResult where
  exit_reason : InstructionResult
  reverted : Bool
  result : Bytes
  gas_used : Nat
  logs : List Log
  traces : CallTraceArena
deriving Repr, DecidableEq

/-- The virtual-machine component (`executor.transact_raw`), a black box
consuming the environment, the backend and one call `(caller, target,
calldata, value)`, and returning a raw outcome plus the mutated
backend, or a VM-level error. -/
abbrev Vm := Env → Backend → Nat → Nat → Bytes → Nat → Except String (RawCallResult × Backend)

/-- Per-call result assembly (source lines 214-221): fields are copied
from the raw outcome; an absent trace becomes the empty arena. -/
def mkExecutionResult (r : RawCallResult) : ExecutionResult :=
  { exit_reason := r.exit_reason
    reverted := r.reverted
    result := r.result
    gas_used := r.gas_used
    logs := r.logs
    traces := r.traces.getD [] }

/-- The call loop (source lines 210-223): calls are applied strictly in
input order to the same backend; a VM-level error aborts the whole
request (the `?` inside `map`/`collect`), while each successful
`transact_raw` outcome — reverted or not — becomes one result. -/
def runCalls (vm : Vm) (env : Env) (address : Nat) :
    List Call → Backend → Except EngineError (List ExecutionResult × Backend)
  | [], b => .ok ([], b)
  | call :: rest, b =>
    match vm env b call.caller address call.calldata call.value with
    | .error e => .error (.vm e)
    | .ok (r, b1) =>
      match runCalls vm env address rest b1 with
      | .error e => .error e
      | .ok (rs, b2) => .ok (mkExecutionResult r :: rs, b2)

/-- Backend state reached after a list of calls (the second component of
a successful run). -/
def runCallsState (vm : Vm) (env : Env) (address : Nat)
    (calls : List Call) (b : Backend) : Except EngineError Backend :=
  (runCalls vm env address calls b).map Prod.snd

/-- Lifts a provider-level failure into the engine error type. -/
def liftProvider {α : Type} : Except String α → Except EngineError α
  | .ok a => .ok a
  | .error e => .error (.provider e)

/-- The whole engine (`execute_calldatas_fork`): endpoint resolution,
the three joined remote reads, chain-id override, environment
construction, backend spawn, bytecode injection, then the call loop.
The backend spawn (`Backend::spawn`) and the VM are abstract
parameters, as is the content-hash function. -/
def execute_calldatas_fork (envv : EnvVars) (provider : Provider) (vm : Vm)
    (hash_slow : Bytes → Nat) (spawnBackend : String → BlockId → Backend)
    (deployed_bytes : Bytes) (address : Nat) (calls : List Call)
    (fork_config : Option ForkConfig) : Except EngineError (List ExecutionResult) :=
  match resolveRpc envv fork_config with
  | .error e => .error e
  | .ok rpc =>
    let block_id := resolveBlockId fork_config
    match liftProvider provider.get_gas_price with
    | .error e => .error e
    | .ok _fork_gas_price =>
      match liftProvider provider.get_chain_id with
      | .error e => .error e
      | .ok reported_chain_id =>
        match liftProvider (provider.get_block block_id) with
        | .error e => .error e
        | .ok blockOpt =>
          let rpc_chain_id := effectiveChainId fork_config reported_chain_id
          match blockOpt with
          | none => .error .blockNotFound
          | some block =>
            match buildEnv block.header rpc_chain_id with
            | .error e => .error e
            | .ok env =>
              let backend :=
                insert_account_info (spawnBackend rpc block_id) address
                  (injectedAccountInfo hash_slow deployed_bytes)
              match runCalls vm env address calls backend with
              | .error e => .error e
              | .ok (rs, _) => .ok rs

/-- Record `ExecutionOptions` as re-exported by `gas/mod.rs` and built by the
route handler: an optional trace-mode string. -/
structure ExecutionOptions where
  trace_mode : Option String
deriving Repr, DecidableEq

/-- Option construction in the route handler
(`routes/execute_calldatas_fork.rs` lines 25-30):
`req.trace_mode.map(|tm| ExecutionOptions { trace_mode: Some(tm) })`. -/
def mkExecutionOptions (trace_mode : Option String) : Option ExecutionOptions :=
  trace_mode.map (fun tm => { trace_mode := some tm })

/-- The trace modes of spec section 4.7. -/
inductive TraceMode where
  | none
  | call
  | jump
  | jumpSimple
  | debug
deriving Repr, DecidableEq

/-- Modelled from the spec: the `ExecutionOptions`-aware executor
construction of `execute_calldatas_fork` (declared by `gas/mod.rs` and
invoked with a fifth `options` argument by the route handler) is not
present under `src/`; per the spec the session trace mode is selected
once at session-build time from the `traceMode` string among
`none`/`call`/`jump`/`jumpSimple`/`debug`, an absent or unrecognized
mode defaulting to disabled. -/
def sessionTraceMode (options : Option ExecutionOptions) : TraceMode :=
  match options with
  | Option.none => TraceMode.none
  | some o =>
    match o.trace_mode with
    | Option.none => TraceMode.none
    | some s =>
      if s = "call" then TraceMode.call
      else if s = "jump" then TraceMode.jump
      else if s = "jumpSimple" then TraceMode.jumpSimple
      else if s = "debug" then TraceMode.debug
      else TraceMode.none

/-- Trace instrumentation: given the session trace mode and a call
raw outcome, the data the inspector stack records for that call. Kept
abstract (it is the forge inspector stack). -/
abbrev Instrumentation := TraceMode → RawCallResult → CallTraceArena

/-- A result whose trace field carries exactly what the selected
instrumentation recorded for the call. -/
def mkTracedResult (instrument : Instrumentation) (mode : TraceMode)
    (r : RawCallResult) : ExecutionResult :=
  { mkExecutionResult r with traces := instrument mode r }

/-- Modelled from the spec: the call loop of the options-aware engine.
Per spec section 4.7 tracing is strictly additive instrumentation: the
raw outcome of each call comes from the virtual-machine component
independently of the trace mode, which only selects what trace data is
recorded alongside each result. -/
def runCallsWithMode (vm : Vm) (instrument : Instrumentation) (mode : TraceMode)
    (env : Env) (address : Nat) :
    List Call → Backend → Except EngineError (List ExecutionResult × Backend)
  | [], b => .ok ([], b)
  | call :: rest, b =>
    match vm env b call.caller address call.calldata call.value with
    | .error e => .error (.vm e)
    | .ok (r, b1) =>
      match runCallsWithMode vm instrument mode env address rest b1 with
      | .error e => .error e
      | .ok (rs, b2) => .ok (mkTracedResult instrument mode r :: rs, b2)

/-- A result with its trace data erased, for comparing runs that may
differ only in trace population. -/
def stripTrace (r : ExecutionResult) : ExecutionResult :=
  { r with traces := [] }

/-- The Fork Resolver endpoint resolution exactly as worded in spec
section 4.2 (first match wins): a present `rpcUrl` is used verbatim;
else a present `chainId` is looked up in the registry, failing with the
unsupported-chain error when absent; else the configured default
endpoint, failing with the missing-default error when unset. Stated
over the request optional fork configuration. -/
def resolveRpcSpec (env : EnvVars) (fork_config : Option ForkConfig) :
    Except EngineError String :=
  match fork_config.bind ForkConfig.rpc_url with
  | some url => .ok url
  | none =>
    match fork_config.bind ForkConfig.chain_id with
    | some cid =>
      match CHAIN_RPC_URLS env cid with
      | some url => .ok url
      | none => .error (.unsupportedChain cid)
    | none =>
      match env "BASE_RPC" with
      | some url => .ok url
      | none => .error .missingDefaultConfiguration

/-! Concrete sample values used to exercise the definitions. -/

/-- Sample environment: every variable set to a fixed URL. -/
def envVarsW : EnvVars := fun _ => some "http://localhost:8545"

/-- Sample remote header: block number present, optional fields absent. -/
def headerW : Header :=
  { number := some 1, timestamp := 2, miner := 3, difficulty := 4
    mix_hash := none, base_fee_per_gas := none, gas_limit := 5 }

/-- Sample header with the block number absent. -/
def hdrNoNumW : Header :=
  { number := none, timestamp := 2, miner := 3, difficulty := 4
    mix_hash := none, base_fee_per_gas := none, gas_limit := 5 }

/-- Sample provider: all three queries succeed. -/
def providerW : Provider :=
  { get_gas_price := .ok 7
    get_chain_id := .ok 8453
    get_block := fun _ => .ok (some { header := headerW }) }

/-- Sample provider whose endpoint reports the requested block as absent. -/
def providerNoBlockW : Provider :=
  { get_gas_price := .ok 7
    get_chain_id := .ok 8453
    get_block := fun _ => .ok none }

/-- Sample empty backend. -/
def backendW : Backend :=
  { overrides := fun _ => none, cache := fun _ => none, contracts := fun _ => none
    remote := fun _ => AccountInfo.default, remoteCode := fun _ => none }

/-- Sample successful raw VM outcome. -/
def rawW : RawCallResult :=
  { exit_reason := .stop, reverted := false, result := [1], gas_used := 21000
    logs := [], traces := none }

/-- Sample reverted raw VM outcome. -/
def rawRevertW : RawCallResult :=
  { exit_reason := .revert, reverted := true, result := [], gas_used := 300
    logs := [], traces := none }

/-- Sample VM returning the fixed successful outcome and leaving the
backend untouched. -/
def vmW : Vm := fun _ b _ _ _ _ => .ok (rawW, b)

/-- Sample VM returning the fixed reverted outcome and leaving the
backend untouched. -/
def vmRevertW : Vm := fun _ b _ _ _ _ => .ok (rawRevertW, b)

/-- Sample call. -/
def callW : Call := { calldata := [170], value := 0, caller := 1 }

/-- Second sample call with a different caller. -/
def callW2 : Call := { calldata := [109], value := 0, caller := 2 }

/-- Sample execution environment: what `buildEnv headerW 10` produces. -/
def envW : Env :=
  { cfg := { chain_id := 10 }
    block := { number := 1, timestamp := 2, coinbase := 3, difficulty := 4
               prevrandao := some 0, basefee := 0, gas_limit := 5 }
    tx := { chain_id := some 10, gas_limit := 5 } }

/-- Sample instrumentation: records nothing when disabled, a marker
otherwise. -/
def instrW : Instrumentation := fun m _ =>
  match m with
  | TraceMode.none => []
  | _ => [7]

end EvmRepl

namespace EvmRepl

/-! Helper lemmas. -/

/-- A remote account fetch never changes the override or local code maps. -/
lemma getAccount_preserves (b : Backend) (a : Nat) :
    (getAccount b a).2.overrides = b.overrides ∧
    (getAccount b a).2.contracts = b.contracts := by
  unfold getAccount
  cases ho : b.overrides a with
  | some info => exact ⟨rfl, rfl⟩
  | none =>
    cases hc : b.cache a with
    | some info => exact ⟨rfl, rfl⟩
    | none => exact ⟨rfl, rfl⟩

/-- A sequence of remote fetches never changes the override or local
code maps. -/
lemma applyOps_preserves (ops : List BackendOp) : ∀ b : Backend,
    (applyOps b ops).overrides = b.overrides ∧
    (applyOps b ops).contracts = b.contracts := by
  induction ops with
  | nil => exact fun b => ⟨rfl, rfl⟩
  | cons op rest ih =>
    intro b
    cases op with
    | fetchAccount a =>
      have h1 := getAccount_preserves b a
      have h2 := ih (getAccount b a).2
      constructor
      · show (applyOps (getAccount b a).2 rest).overrides = b.overrides
        rw [h2.1, h1.1]
      · show (applyOps (getAccount b a).2 rest).contracts = b.contracts
        rw [h2.2, h1.2]

/-- Unfolding the threaded backend state across the head call. -/
lemma runCallsState_cons (vm : Vm) (env : Env) (a : Nat) (c : Call)
    (l : List Call) (b : Backend) (r : RawCallResult) (b1 : Backend)
    (hv : vm env b c.caller a c.calldata c.value = .ok (r, b1)) :
    runCallsState vm env a (c :: l) b = runCallsState vm env a l b1 := by
  simp only [runCallsState, runCalls, hv]
  cases runCalls vm env a l b1 with
  | error e => rfl
  | ok q => cases q; rfl

/-- A successful run yields one result per call: the lengths agree and
the i-th result is assembled from the VM outcome of the i-th call at
the state threaded through the first i calls. -/
lemma runCalls_ok_spec (vm : Vm) (env : Env) (a : Nat) :
    ∀ (calls : List Call) (b : Backend) (rs : List ExecutionResult) (bf : Backend),
      runCalls vm env a calls b = .ok (rs, bf) →
      rs.length = calls.length ∧
      ∀ i (hi : i < calls.length), ∃ bi ri bi2,
        runCallsState vm env a (List.take i calls) b = .ok bi ∧
        vm env bi (calls[i].caller) a (calls[i].calldata) (calls[i].value) = .ok (ri, bi2) ∧
        rs[i]? = some (mkExecutionResult ri) := by
  intro calls
  induction calls with
  | nil =>
    intro b rs bf h
    simp only [runCalls, Except.ok.injEq, Prod.mk.injEq] at h
    obtain ⟨h1, _⟩ := h
    subst h1
    exact ⟨rfl, fun i hi => absurd hi (by simp)⟩
  | cons c rest ih =>
    intro b rs bf h
    simp only [runCalls] at h
    cases hv : vm env b c.caller a c.calldata c.value with
    | error e => simp only [hv] at h; exact Except.noConfusion h
    | ok p =>
      obtain ⟨r, b1⟩ := p
      simp only [hv] at h
      cases hr : runCalls vm env a rest b1 with
      | error e => simp only [hr] at h; exact Except.noConfusion h
      | ok q =>
        obtain ⟨rs2, b2⟩ := q
        simp only [hr] at h
        simp only [Except.ok.injEq, Prod.mk.injEq] at h
        obtain ⟨hrs, _⟩ := h
        subst hrs
        obtain ⟨hlen, hord⟩ := ih b1 rs2 b2 hr
        refine ⟨by simp [hlen], ?_⟩
        intro i hi
        match i with
        | 0 =>
          refine ⟨b, r, b1, ?_, ?_, ?_⟩
          · simp [runCallsState, runCalls, Except.map]
          · simpa using hv
          · simp
        | Nat.succ j =>
          have hj : j < rest.length := by simpa using hi
          obtain ⟨bi, ri, bi2, h1, h2, h3⟩ := hord j hj
          refine ⟨bi, ri, bi2, ?_, ?_, ?_⟩
          · rw [List.take_succ_cons, runCallsState_cons vm env a c _ b r b1 hv]
            exact h1
          · simpa using h2
          · simpa using h3

/-- Running an appended call list is running the two halves in
sequence, threading the backend state. -/
lemma runCalls_append (vm : Vm) (env : Env) (a : Nat) :
    ∀ (xs ys : List Call) (b : Backend),
      runCalls vm env a (xs ++ ys) b =
        match runCalls vm env a xs b with
        | .error e => .error e
        | .ok (rs1, b1) =>
          match runCalls vm env a ys b1 with
          | .error e => .error e
          | .ok (rs2, b2) => .ok (rs1 ++ rs2, b2) := by
  intro xs
  induction xs with
  | nil =>
    intro ys b
    simp only [List.nil_append, runCalls]
    cases hr : runCalls vm env a ys b with
    | error e => rfl
    | ok p => obtain ⟨rs2, b2⟩ := p; simp
  | cons c rest ih =>
    intro ys b
    simp only [List.cons_append, runCalls]
    cases hv : vm env b c.caller a c.calldata c.value with
    | error e => rfl
    | ok p =>
      obtain ⟨r, b1⟩ := p
      dsimp only
      simp only [List.append_eq]
      rw [ih ys b1]
      cases hr : runCalls vm env a rest b1 with
      | error e => rfl
      | ok q =>
        obtain ⟨rs1, b2⟩ := q
        dsimp only
        cases hr2 : runCalls vm env a ys b2 with
        | error e => rfl
        | ok q2 => obtain ⟨rs2, b3⟩ := q2; simp

/-- A successful whole-engine run comes from a successful call loop on
the injected backend. -/
lemma execute_ok_runCalls (envv : EnvVars) (provider : Provider) (vm : Vm)
    (hash_slow : Bytes → Nat) (spawnBackend : String → BlockId → Backend)
    (deployed_bytes : Bytes) (address : Nat) (calls : List Call)
    (fc : Option ForkConfig) (rs : List ExecutionResult)
    (h : execute_calldatas_fork envv provider vm hash_slow spawnBackend
      deployed_bytes address calls fc = .ok rs) :
    ∃ env b0 bf, runCalls vm env address calls b0 = .ok (rs, bf) := by
  simp only [execute_calldatas_fork] at h
  cases hrpc : resolveRpc envv fc with
  | error e => simp [hrpc] at h
  | ok rpc =>
  simp only [hrpc] at h
  cases hgp : liftProvider provider.get_gas_price with
  | error e => simp [hgp] at h
  | ok gp =>
  simp only [hgp] at h
  cases hcid : liftProvider provider.get_chain_id with
  | error e => simp [hcid] at h
  | ok rid =>
  simp only [hcid] at h
  cases hb : liftProvider (provider.get_block (resolveBlockId fc)) with
  | error e => simp [hb] at h
  | ok blockOpt =>
  simp only [hb] at h
  cases blockOpt with
  | none => simp at h
  | some block =>
  cases henv : buildEnv block.header (effectiveChainId fc rid) with
  | error e => simp [henv] at h
  | ok env =>
  simp only [henv] at h
  cases hrun : runCalls vm env address calls
      (insert_account_info (spawnBackend rpc (resolveBlockId fc)) address
        (injectedAccountInfo hash_slow deployed_bytes)) with
  | error e => simp [hrun] at h
  | ok p =>
  obtain ⟨rs0, bf⟩ := p
  simp only [hrun, Except.ok.injEq] at h
  subst h
  exact ⟨env, _, bf, hrun⟩

/-- In a successful mode-aware run, every result carries exactly what
the selected instrumentation recorded. -/
lemma runCallsWithMode_results (vm : Vm) (instrument : Instrumentation)
    (mode : TraceMode) (env : Env) (a : Nat) :
    ∀ (calls : List Call) (b : Backend) (rs : List ExecutionResult) (bf : Backend),
      runCallsWithMode vm instrument mode env a calls b = .ok (rs, bf) →
      ∀ res ∈ rs, ∃ r, res = mkTracedResult instrument mode r := by
  intro calls
  induction calls with
  | nil =>
    intro b rs bf h res hres
    simp only [runCallsWithMode, Except.ok.injEq, Prod.mk.injEq] at h
    obtain ⟨h1, _⟩ := h
    subst h1
    simp at hres
  | cons c rest ih =>
    intro b rs bf h res hres
    simp only [runCallsWithMode] at h
    cases hv : vm env b c.caller a c.calldata c.value with
    | error e => simp only [hv] at h; exact Except.noConfusion h
    | ok p =>
      obtain ⟨r, b1⟩ := p
      simp only [hv] at h
      cases hr : runCallsWithMode vm instrument mode env a rest b1 with
      | error e => simp only [hr] at h; exact Except.noConfusion h
      | ok q =>
        obtain ⟨rs2, b2⟩ := q
        simp only [hr] at h
        simp only [Except.ok.injEq, Prod.mk.injEq] at h
        obtain ⟨hrs, _⟩ := h
        subst hrs
        rcases List.mem_cons.mp hres with hres | hres
        · exact ⟨r, hres⟩
        · exact ih b1 rs2 b2 hr res hres

/-! Claim theorems. -/

/-- C1: whenever `execute_calldatas_fork` returns successfully, the
returned list contains exactly one `ExecutionResult` per input `Call`,
in input order — the lengths agree (the empty sequence yielding the
empty list), and the i-th result is assembled from the VM outcome of
the i-th call at the backend state threaded through the first i calls. -/
theorem execute_one_result_per_call_in_order (envv : EnvVars) (provider : Provider)
    (vm : Vm) (hash_slow : Bytes → Nat) (spawnBackend : String → BlockId → Backend)
    (deployed_bytes : Bytes) (address : Nat) (calls : List Call)
    (fc : Option ForkConfig) (rs : List ExecutionResult)
    (h : execute_calldatas_fork envv provider vm hash_slow spawnBackend
      deployed_bytes address calls fc = .ok rs) :
    rs.length = calls.length ∧ (calls = [] → rs = []) ∧
    ∃ env b0 bf, runCalls vm env address calls b0 = .ok (rs, bf) ∧
      ∀ i (hi : i < calls.length), ∃ bi ri bi2,
        runCallsState vm env address (List.take i calls) b0 = .ok bi ∧
        vm env bi (calls[i].caller) address (calls[i].calldata) (calls[i].value)
          = .ok (ri, bi2) ∧
        rs[i]? = some (mkExecutionResult ri) := by
  obtain ⟨env, b0, bf, hrun⟩ := execute_ok_runCalls envv provider vm hash_slow
    spawnBackend deployed_bytes address calls fc rs h
  obtain ⟨hlen, hord⟩ := runCalls_ok_spec vm env address calls b0 rs bf hrun
  refine ⟨hlen, ?_, env, b0, bf, hrun, hord⟩
  intro hc
  subst hc
  exact List.length_eq_zero.mp hlen

/-- Closed instance of C1: a one-call session against a sample provider
succeeds with exactly one result, in order. -/
theorem execute_one_result_per_call_in_order_witness :
    ([mkExecutionResult rawW] : List ExecutionResult).length = [callW].length ∧
    ([callW] = ([] : List Call) → [mkExecutionResult rawW] = []) ∧
    ∃ env b0 bf, runCalls vmW env 5 [callW] b0 = .ok ([mkExecutionResult rawW], bf) ∧
      ∀ i (hi : i < [callW].length), ∃ bi ri bi2,
        runCallsState vmW env 5 (List.take i [callW]) b0 = .ok bi ∧
        vmW env bi ([callW][i].caller) 5 ([callW][i].calldata) ([callW][i].value)
          = .ok (ri, bi2) ∧
        [mkExecutionResult rawW][i]? = some (mkExecutionResult ri) :=
  execute_one_result_per_call_in_order envVarsW providerW vmW
    (fun bs => bs.length) (fun _ _ => backendW) [254] 5 [callW] none
    [mkExecutionResult rawW] rfl

/-- C2: once the caller-supplied bytecode is injected, the injected
address reports the bytecode content hash as its code hash and the
code store returns exactly those bytes for that hash, whatever the
remote endpoint holds and after any sequence of later remote fetches. -/
theorem injected_code_fixed_for_session (b : Backend) (hash_slow : Bytes → Nat)
    (deployed_bytes : Bytes) (address : Nat) (ops : List BackendOp) :
    (getAccount (applyOps (insert_account_info b address
        (injectedAccountInfo hash_slow deployed_bytes)) ops) address).1.code_hash
      = hash_slow deployed_bytes ∧
    getCode (applyOps (insert_account_info b address
        (injectedAccountInfo hash_slow deployed_bytes)) ops)
        (hash_slow deployed_bytes) = some deployed_bytes := by
  have hp := applyOps_preserves ops
    (insert_account_info b address (injectedAccountInfo hash_slow deployed_bytes))
  constructor
  · unfold getAccount
    rw [hp.1]
    simp [insert_account_info, injectedAccountInfo]
  · unfold getCode
    rw [hp.2]
    simp [insert_account_info, injectedAccountInfo]

/-- C4: the effective RPC endpoint resolution of the engine agrees, for
every environment and every optional fork configuration, with the
spec first-match-wins resolution order (explicit URL, then chain-id
registry lookup failing as unsupported, then the configured default
failing as missing). -/
theorem rpc_resolution_first_match_wins (env : EnvVars) (fc : Option ForkConfig) :
    resolveRpc env fc = resolveRpcSpec env fc := by
  cases fc with
  | none =>
    simp only [resolveRpc, resolveRpcSpec, defaultRpc, Option.bind]
  | some config =>
    obtain ⟨ru, cid, bn⟩ := config
    cases ru with
    | some u => rfl
    | none =>
      cases cid with
      | some c =>
        simp only [resolveRpc, resolveRpcSpec, defaultRpc, Option.bind]
      | none =>
        simp only [resolveRpc, resolveRpcSpec, defaultRpc, Option.bind]

/-- C7: the block environment substitutes defaults for absent optional
header fields — randomness falls back to zero via `mix_hash.getD 0`
and the base fee to zero — and succeeds for every header carrying a
block number; only an absent block number is fatal. -/
theorem header_absent_fields_defaulted (header : Header) (n : Nat) :
    (header.number = none → buildBlockEnv header = .error .blockNumberNotFound) ∧
    (header.number = some n →
      buildBlockEnv header = .ok
        { number := n
          timestamp := header.timestamp
          coinbase := header.miner
          difficulty := header.difficulty
          prevrandao := some (header.mix_hash.getD 0)
          basefee := header.base_fee_per_gas.getD 0
          gas_limit := header.gas_limit }) := by
  constructor
  · intro h
    unfold buildBlockEnv
    rw [h]
  · intro h
    unfold buildBlockEnv
    rw [h]

/-- Closed instance of C7: a header without a number is fatal; a header
whose optional randomness and base fee are absent builds the
environment with both defaulted to zero. -/
theorem header_absent_fields_defaulted_witness :
    buildBlockEnv hdrNoNumW = .error .blockNumberNotFound ∧
    buildBlockEnv headerW = .ok
      { number := 1, timestamp := headerW.timestamp, coinbase := headerW.miner
        difficulty := headerW.difficulty
        prevrandao := some (headerW.mix_hash.getD 0)
        basefee := headerW.base_fee_per_gas.getD 0
        gas_limit := headerW.gas_limit } :=
  ⟨(header_absent_fields_defaulted hdrNoNumW 0).1 rfl,
   (header_absent_fields_defaulted headerW 1).2 rfl⟩

/-- C10: injecting bytecode replaces the account entire account info:
after injection the injected address reports default zero balance and
zero nonce for the whole session, whatever balance and nonce the
remote endpoint holds there, and after any later remote fetches. -/
theorem injection_resets_balance_and_nonce (b : Backend) (hash_slow : Bytes → Nat)
    (deployed_bytes : Bytes) (address : Nat) (ops : List BackendOp) :
    (getAccount (applyOps (insert_account_info b address
        (injectedAccountInfo hash_slow deployed_bytes)) ops) address).1.balance = 0 ∧
    (getAccount (applyOps (insert_account_info b address
        (injectedAccountInfo hash_slow deployed_bytes)) ops) address).1.nonce = 0 := by
  have hp := applyOps_preserves ops
    (insert_account_info b address (injectedAccountInfo hash_slow deployed_bytes))
  constructor
  · unfold getAccount
    rw [hp.1]
    simp [insert_account_info, injectedAccountInfo, AccountInfo.default]
  · unfold getAccount
    rw [hp.1]
    simp [insert_account_info, injectedAccountInfo, AccountInfo.default]

/-- Evaluation of `Except.map` on a success value. -/
lemma exceptMap_ok {α β γ : Type} (f : α → β) (a : α) :
    (Except.ok a : Except γ α).map f = .ok (f a) := rfl

/-- Evaluation of `Except.map` on an error value. -/
lemma exceptMap_error {α β γ : Type} (f : α → β) (e : γ) :
    (Except.error e : Except γ α).map f = .error e := rfl

/-- C3: a reverting call does not abort the sequence: it yields its own
result with the revert flag set, its state changes are not applied
(the VM contract of normal contract-call semantics, taken as the
`hsem` hypothesis), and the remaining calls still run — against the
state as it stood after the reverted call — producing one result each. -/
theorem reverted_call_does_not_abort (vm : Vm) (env : Env) (a : Nat)
    (pre post : List Call) (c : Call) (b bc bc2 bf : Backend)
    (rs rsPre : List ExecutionResult) (rc : RawCallResult)
    (hrun : runCalls vm env a (pre ++ c :: post) b = .ok (rs, bf))
    (hpre : runCalls vm env a pre b = .ok (rsPre, bc))
    (hc : vm env bc c.caller a c.calldata c.value = .ok (rc, bc2))
    (hrev : rc.reverted = true)
    (hsem : ∀ (b0 : Backend) (cc : Call) (r : RawCallResult) (b1 : Backend),
      vm env b0 cc.caller a cc.calldata cc.value = .ok (r, b1) →
      r.reverted = true → b1 = b0) :
    bc2 = bc ∧
    rs[pre.length]? = some (mkExecutionResult rc) ∧
    (mkExecutionResult rc).reverted = true ∧
    ∃ rsPost, rs = rsPre ++ mkExecutionResult rc :: rsPost ∧
      runCalls vm env a post bc = .ok (rsPost, bf) ∧
      rsPost.length = post.length := by
  have hbc : bc2 = bc := hsem bc c rc bc2 hc hrev
  rw [runCalls_append vm env a pre (c :: post) b] at hrun
  simp only [hpre] at hrun
  simp only [runCalls, hc] at hrun
  rw [hbc] at hrun
  cases hpost : runCalls vm env a post bc with
  | error e => simp only [hpost] at hrun; exact Except.noConfusion hrun
  | ok q =>
    obtain ⟨rsPost, b2⟩ := q
    simp only [hpost, Except.ok.injEq, Prod.mk.injEq] at hrun
    obtain ⟨hrs, hbf⟩ := hrun
    subst hbf
    subst hrs
    have hlenPre := (runCalls_ok_spec vm env a pre b rsPre bc hpre).1
    have hlenPost := (runCalls_ok_spec vm env a post bc rsPost b2 hpost).1
    refine ⟨hbc, ?_, by simp [mkExecutionResult, hrev], rsPost, rfl, rfl, hlenPost⟩
    rw [← hlenPre, List.getElem?_append_right (le_refl rsPre.length)]
    simp

/-- Closed instance of C3: with an always-reverting state-preserving VM,
the first call revert still leaves a two-element result list and the
second call still runs from the untouched state. -/
theorem reverted_call_does_not_abort_witness :
    backendW = backendW ∧
    ([mkExecutionResult rawRevertW, mkExecutionResult rawRevertW]
      : List ExecutionResult)[([] : List Call).length]?
      = some (mkExecutionResult rawRevertW) ∧
    (mkExecutionResult rawRevertW).reverted = true ∧
    ∃ rsPost, ([mkExecutionResult rawRevertW, mkExecutionResult rawRevertW]
        : List ExecutionResult)
        = [] ++ mkExecutionResult rawRevertW :: rsPost ∧
      runCalls vmRevertW envW 5 [callW2] backendW = .ok (rsPost, backendW) ∧
      rsPost.length = [callW2].length :=
  reverted_call_does_not_abort vmRevertW envW 5 [] [callW2] callW backendW backendW
    backendW backendW [mkExecutionResult rawRevertW, mkExecutionResult rawRevertW] []
    rawRevertW rfl rfl rfl rfl
    (fun b0 cc r b1 hv hr => by cases hv; rfl)

/-- C5: the chain id installed in the execution environment — both the
configuration and the transaction environment — equals the explicitly
supplied `forkConfig.chainId` whatever the endpoint reported, and
equals the endpoint-reported chain id when none was supplied. -/
theorem supplied_chain_id_overrides_endpoint (fc : Option ForkConfig) (reported : Nat)
    (header : Header) (e : Env)
    (he : buildEnv header (effectiveChainId fc reported) = .ok e) :
    (∀ c cid, fc = some c → c.chain_id = some cid →
      e.cfg.chain_id = cid ∧ e.tx.chain_id = some cid) ∧
    (fc.bind ForkConfig.chain_id = none →
      e.cfg.chain_id = reported ∧ e.tx.chain_id = some reported) := by
  have hch : e.cfg.chain_id = effectiveChainId fc reported ∧
      e.tx.chain_id = some (effectiveChainId fc reported) := by
    unfold buildEnv at he
    cases hb : buildBlockEnv header with
    | error err => simp only [hb] at he; exact Except.noConfusion he
    | ok be =>
      simp only [hb, Except.ok.injEq] at he
      subst he
      exact ⟨rfl, rfl⟩
  constructor
  · intro c cid hfc hcid
    subst hfc
    rw [hch.1, hch.2]
    constructor <;> simp [effectiveChainId, hcid]
  · intro hnone
    have heff : effectiveChainId fc reported = reported := by
      cases fc with
      | none => rfl
      | some c =>
        simp only [Option.some_bind] at hnone
        simp [effectiveChainId, hnone]
    rw [hch.1, hch.2, heff]
    exact ⟨rfl, rfl⟩

/-- Closed instance of C5: a supplied chain id 10 overrides the
endpoint-reported 99 in both environment locations. -/
theorem supplied_chain_id_overrides_endpoint_witness :
    envW.cfg.chain_id = 10 ∧ envW.tx.chain_id = some 10 :=
  (supplied_chain_id_overrides_endpoint (some ⟨none, some 10, none⟩) 99 headerW envW
    rfl).1 ⟨none, some 10, none⟩ 10 rfl rfl

/-- C6: when the endpoint reports the block as absent or any of the
three joined remote reads fails, the whole request fails — it never
returns a (partial) result list — and no call executes: the outcome
does not depend on the virtual machine at all. -/
theorem provider_failure_fails_whole_request (envv : EnvVars) (provider : Provider)
    (vm vm2 : Vm) (hash_slow : Bytes → Nat) (spawnBackend : String → BlockId → Backend)
    (deployed_bytes : Bytes) (address : Nat) (calls : List Call) (fc : Option ForkConfig)
    (h : provider.get_block (resolveBlockId fc) = .ok none ∨
         (∃ e, provider.get_block (resolveBlockId fc) = .error e) ∨
         (∃ e, provider.get_gas_price = .error e) ∨
         (∃ e, provider.get_chain_id = .error e)) :
    (∀ rs, execute_calldatas_fork envv provider vm hash_slow spawnBackend
        deployed_bytes address calls fc ≠ .ok rs) ∧
    execute_calldatas_fork envv provider vm hash_slow spawnBackend
        deployed_bytes address calls fc =
      execute_calldatas_fork envv provider vm2 hash_slow spawnBackend
        deployed_bytes address calls fc := by
  simp only [execute_calldatas_fork]
  cases hrpc : resolveRpc envv fc with
  | error e => simp
  | ok rpc =>
    cases hgp : liftProvider provider.get_gas_price with
    | error e => simp
    | ok gp =>
      cases hcid : liftProvider provider.get_chain_id with
      | error e => simp
      | ok rid =>
        cases hb : liftProvider (provider.get_block (resolveBlockId fc)) with
        | error e => simp
        | ok blockOpt =>
          have hbn : blockOpt = none := by
            rcases h with h | ⟨e, h⟩ | ⟨e, h⟩ | ⟨e, h⟩
            · rw [h] at hb
              simp only [liftProvider] at hb
              injection hb with h2
              exact h2.symm
            · rw [h] at hb; simp [liftProvider] at hb
            · rw [h] at hgp; simp [liftProvider] at hgp
            · rw [h] at hcid; simp [liftProvider] at hcid
          subst hbn
          simp

/-- Closed instance of C6: an endpoint reporting the block as absent
fails the whole request for any VM, with no result list. -/
theorem provider_failure_fails_whole_request_witness :
    (∀ rs, execute_calldatas_fork envVarsW providerNoBlockW vmW (fun bs => bs.length)
        (fun _ _ => backendW) [254] 5 [callW] none ≠ .ok rs) ∧
    execute_calldatas_fork envVarsW providerNoBlockW vmW (fun bs => bs.length)
        (fun _ _ => backendW) [254] 5 [callW] none =
      execute_calldatas_fork envVarsW providerNoBlockW vmRevertW (fun bs => bs.length)
        (fun _ _ => backendW) [254] 5 [callW] none :=
  provider_failure_fails_whole_request envVarsW providerNoBlockW vmW vmRevertW
    (fun bs => bs.length) (fun _ _ => backendW) [254] 5 [callW] none (Or.inl rfl)

/-- C8: the trace mode is configurable at session-build time via the
boundary `traceMode` parameter — each of the five enumerated strings
selects its mode, absence disables tracing — and the selected mode
determines the instrumentation recorded with every call result in
the session. -/
theorem trace_mode_selected_at_build_time (vm : Vm) (instrument : Instrumentation)
    (options : Option ExecutionOptions) (env : Env) (a : Nat) (calls : List Call)
    (b bf : Backend) (rs : List ExecutionResult)
    (h : runCallsWithMode vm instrument (sessionTraceMode options) env a calls b
      = .ok (rs, bf)) :
    sessionTraceMode (mkExecutionOptions (some "none")) = TraceMode.none ∧
    sessionTraceMode (mkExecutionOptions (some "call")) = TraceMode.call ∧
    sessionTraceMode (mkExecutionOptions (some "jump")) = TraceMode.jump ∧
    sessionTraceMode (mkExecutionOptions (some "jumpSimple")) = TraceMode.jumpSimple ∧
    sessionTraceMode (mkExecutionOptions (some "debug")) = TraceMode.debug ∧
    sessionTraceMode (mkExecutionOptions Option.none) = TraceMode.none ∧
    ∀ res ∈ rs, ∃ r, res = mkTracedResult instrument (sessionTraceMode options) r :=
  ⟨by decide, by decide, by decide, by decide, by decide, rfl,
   runCallsWithMode_results vm instrument (sessionTraceMode options) env a calls b rs
     bf h⟩

/-- Closed instance of C8: the "call" string selects call tracing and
the one produced result carries exactly what the call-mode
instrumentation recorded. -/
theorem trace_mode_selected_at_build_time_witness :
    sessionTraceMode (mkExecutionOptions (some "none")) = TraceMode.none ∧
    sessionTraceMode (mkExecutionOptions (some "call")) = TraceMode.call ∧
    sessionTraceMode (mkExecutionOptions (some "jump")) = TraceMode.jump ∧
    sessionTraceMode (mkExecutionOptions (some "jumpSimple")) = TraceMode.jumpSimple ∧
    sessionTraceMode (mkExecutionOptions (some "debug")) = TraceMode.debug ∧
    sessionTraceMode (mkExecutionOptions Option.none) = TraceMode.none ∧
    ∀ res ∈ ([mkTracedResult instrW TraceMode.call rawW] : List ExecutionResult),
      ∃ r, res = mkTracedResult instrW TraceMode.call r :=
  trace_mode_selected_at_build_time vmW instrW (mkExecutionOptions (some "call")) envW
    5 [callW] backendW backendW [mkTracedResult instrW TraceMode.call rawW] rfl

/-- C9: tracing is strictly additive: for every VM, instrumentation,
inputs and mode, the run with that mode and the run with tracing
disabled agree call by call on everything except the recorded trace
data — erasing the trace field makes the two outcomes identical,
including the threaded state and any failure. -/
theorem tracing_strictly_additive (vm : Vm) (instrument : Instrumentation)
    (mode : TraceMode) (env : Env) (a : Nat) (calls : List Call) : ∀ b : Backend,
    (runCallsWithMode vm instrument mode env a calls b).map
        (fun p => (p.1.map stripTrace, p.2)) =
    (runCallsWithMode vm instrument TraceMode.none env a calls b).map
        (fun p => (p.1.map stripTrace, p.2)) := by
  induction calls with
  | nil => intro b; rfl
  | cons c rest ih =>
    intro b
    simp only [runCallsWithMode]
    cases hv : vm env b c.caller a c.calldata c.value with
    | error e => rfl
    | ok p =>
      obtain ⟨r, b1⟩ := p
      dsimp only
      have hih := ih b1
      cases h1 : runCallsWithMode vm instrument mode env a rest b1 with
      | error e =>
        cases h2 : runCallsWithMode vm instrument TraceMode.none env a rest b1 with
        | error e2 =>
          rw [h1, h2] at hih
          simp only [exceptMap_error] at hih
          cases hih
          rfl
        | ok q =>
          rw [h1, h2] at hih
          obtain ⟨rs2, b3⟩ := q
          simp [exceptMap_error, exceptMap_ok] at hih
      | ok q =>
        obtain ⟨rs1, b2⟩ := q
        cases h2 : runCallsWithMode vm instrument TraceMode.none env a rest b1 with
        | error e2 =>
          rw [h1, h2] at hih
          simp [exceptMap_error, exceptMap_ok] at hih
        | ok q2 =>
          obtain ⟨rs2, b3⟩ := q2
          rw [h1, h2] at hih
          simp only [exceptMap_ok, Except.ok.injEq, Prod.mk.injEq] at hih
          obtain ⟨hrs, hb⟩ := hih
          subst hb
          simp [exceptMap_ok, stripTrace, mkTracedResult, mkExecutionResult, hrs]

end EvmRepl
